import Mathlib

/-!
Verification of the MBS analysis engine of `mbs_analysis.py`.

The engine consists of four functions: `psa_prepayment_speed` (PSA prepayment
model), `mbs_cash_flows` (amortization / cash-flow generator), `calculate_wal`
(weighted average life) and `price_mbs` (discounted price).  Python floats are
modelled as exact real numbers, NumPy arrays as lists of reals; the `for` loop
of the generator becomes a structurally recursive function on the number of
remaining months.
-/

noncomputable section

open Finset

/-- Clamped annualized CPR computed inside `psa_prepayment_speed`
(`mbs_analysis.py` lines 10-15): `0.002 * (month / 30) * (psa_factor / 100)`
for `month ≤ 30`, `0.06 * (psa_factor / 100)` afterwards, clamped to `[0, 1]`. -/
def psa_cpr (month : ℕ) (psa_factor : ℝ) : ℝ :=
  let psa_multiplier := psa_factor / 100
  let cpr := if month ≤ 30 then 0.002 * ((month : ℝ) / 30) * psa_multiplier
             else 0.06 * psa_multiplier
  min (max cpr 0.0) 1.0

/-- `psa_prepayment_speed` (lines 8-17): the SMM `1 - (1 - cpr) ** (1 / 12)`
obtained from the clamped CPR. -/
def psa_prepayment_speed (month : ℕ) (psa_factor : ℝ) : ℝ :=
  1 - (1 - psa_cpr month psa_factor) ^ ((1 : ℝ) / 12)

/-- Fixed monthly payment computed by `mbs_cash_flows` (lines 21, 26-30):
straight-line `principal / term_months` when the monthly rate is `≤ 0`,
otherwise the level annuity payment.  Caution: at `term_months = 0` the source
raises ZeroDivisionError in both branches (`principal / 0`, or division by
`factor - 1 = 0` since `(1 + r) ** 0 = 1`), an error path that Lean's total
division collapses to a junk value; theorems about `mbs_cash_flows` therefore
only speak about `term_months ≥ 1`, where this definition is faithful. -/
def monthly_payment (principal coupon_rate : ℝ) (term_months : ℕ) : ℝ :=
  let monthly_rate := coupon_rate / 12
  if monthly_rate ≤ 0 then principal / term_months
  else
    let factor := (1 + monthly_rate) ^ term_months
    principal * monthly_rate * factor / (factor - 1)

/-- Loop body of `mbs_cash_flows` (lines 32-43).  The first `ℕ` argument is the
number of remaining iterations, the second the current 1-based month; the `ℝ`
argument is the outstanding balance. -/
def mbs_loop (monthly_rate monthly_payment psa_factor : ℝ) :
    ℕ → ℕ → ℝ → List ℝ
  | 0, _, _ => []
  | fuel + 1, month, balance =>
    if balance ≤ 0 then
      0 :: mbs_loop monthly_rate monthly_payment psa_factor fuel (month + 1) balance
    else
      let smm := psa_prepayment_speed month psa_factor
      let interest := balance * monthly_rate
      let scheduled_principal := min (monthly_payment - interest) balance
      let prepayment := balance * smm
      let total_principal := min (scheduled_principal + prepayment) balance
      let cash_flow := interest + total_principal
      cash_flow ::
        mbs_loop monthly_rate monthly_payment psa_factor fuel (month + 1)
          (balance - total_principal)

/-- `mbs_cash_flows` (lines 19-45).  The `discount_rate` argument is accepted
and ignored, exactly as in the source. -/
def mbs_cash_flows (principal coupon_rate : ℝ) (term_months : ℕ)
    (psa_factor discount_rate : ℝ) : List ℝ :=
  mbs_loop (coupon_rate / 12) (monthly_payment principal coupon_rate term_months)
    psa_factor term_months 1 principal

/-- `calculate_wal` (lines 47-50): `np.sum(cash_flows * months) / np.sum(cash_flows)`
with `months = 1, ..., len(cash_flows)`.  NumPy's float division is modelled by
real division (in particular the `0/0` of an all-zero series, a NaN in NumPy,
is the junk value `0` here; no error is signalled, as in the source). -/
def calculate_wal (cash_flows : List ℝ) : ℝ :=
  (∑ i in Finset.range cash_flows.length, cash_flows.getD i 0 * ((i : ℝ) + 1)) /
    cash_flows.sum

/-- `price_mbs` (lines 52-55): `sum(cash_flows * (1 + r/12) ** (-t))` for
`t = 1, ..., len(cash_flows)`. -/
def price_mbs (cash_flows : List ℝ) (discount_rate : ℝ) : ℝ :=
  ∑ i in Finset.range cash_flows.length,
    cash_flows.getD i 0 * (1 + discount_rate / 12) ^ (-((i : ℤ) + 1))

/-- One month of balance evolution: the effect of lines 33-43 on `balance`
(`balance` unchanged in the `balance ≤ 0` branch, otherwise reduced by
`total_principal`). -/
def balStep (monthly_rate monthly_payment smm balance : ℝ) : ℝ :=
  if balance ≤ 0 then balance
  else
    balance -
      min (min (monthly_payment - balance * monthly_rate) balance + balance * smm)
        balance

/-- Total principal applied in one month (line 40); `0` in the
`balance ≤ 0` branch where the loop emits a zero cash flow. -/
def tpStep (monthly_rate monthly_payment smm balance : ℝ) : ℝ :=
  if balance ≤ 0 then 0
  else
    min (min (monthly_payment - balance * monthly_rate) balance + balance * smm)
      balance

/-- Cash flow emitted in one month (lines 34, 41): `interest + total_principal`,
or `0` in the `balance ≤ 0` branch. -/
def cfStep (monthly_rate monthly_payment smm balance : ℝ) : ℝ :=
  if balance ≤ 0 then 0
  else
    balance * monthly_rate +
      min (min (monthly_payment - balance * monthly_rate) balance + balance * smm)
        balance

/-- Outstanding balance after `m` months of the generation loop, starting from
`principal`; month `m` uses `psa_prepayment_speed m psa_factor`. -/
def mbs_bal (monthly_rate monthly_payment psa_factor principal : ℝ) : ℕ → ℝ
  | 0 => principal
  | m + 1 =>
    balStep monthly_rate monthly_payment (psa_prepayment_speed (m + 1) psa_factor)
      (mbs_bal monthly_rate monthly_payment psa_factor principal m)

/-- Reference balance of a prepayment-free level-payment amortization:
`A 0 = principal`, `A (m+1) = (1 + r) * A m - P`.  Used to show the generator's
balance is exhausted by the final month. -/
def ann_bal (monthly_rate monthly_payment principal : ℝ) : ℕ → ℝ
  | 0 => principal
  | m + 1 => (1 + monthly_rate) * ann_bal monthly_rate monthly_payment principal m -
      monthly_payment

/-! ### Basic lemmas about the prepayment model -/

lemma psa_cpr_nonneg (m : ℕ) (psa : ℝ) : 0 ≤ psa_cpr m psa := by
  unfold psa_cpr
  exact le_min (le_trans (by norm_num : (0 : ℝ) ≤ 0.0) (le_max_right _ _))
    (by norm_num)

lemma psa_cpr_le_one (m : ℕ) (psa : ℝ) : psa_cpr m psa ≤ 1 := by
  unfold psa_cpr
  exact le_trans (min_le_right _ _) (by norm_num)

lemma psa_speed_nonneg (m : ℕ) (psa : ℝ) : 0 ≤ psa_prepayment_speed m psa := by
  unfold psa_prepayment_speed
  have h : (1 - psa_cpr m psa) ^ ((1 : ℝ) / 12) ≤ 1 :=
    Real.rpow_le_one (by linarith [psa_cpr_le_one m psa])
      (by linarith [psa_cpr_nonneg m psa]) (by norm_num)
  linarith

lemma psa_speed_le_one (m : ℕ) (psa : ℝ) : psa_prepayment_speed m psa ≤ 1 := by
  unfold psa_prepayment_speed
  have h : 0 ≤ (1 - psa_cpr m psa) ^ ((1 : ℝ) / 12) :=
    Real.rpow_nonneg (by linarith [psa_cpr_le_one m psa]) _
  linarith

/-- The SMM never exceeds the annualized CPR it is derived from. -/
lemma psa_speed_le_cpr (m : ℕ) (psa : ℝ) :
    psa_prepayment_speed m psa ≤ psa_cpr m psa := by
  unfold psa_prepayment_speed
  rcases lt_or_le (psa_cpr m psa) 1 with h | h
  · have hx : (0 : ℝ) < 1 - psa_cpr m psa := by linarith
    have h1 : (1 - psa_cpr m psa) ^ (1 : ℝ) ≤ (1 - psa_cpr m psa) ^ ((1 : ℝ) / 12) :=
      Real.rpow_le_rpow_of_exponent_ge hx (by linarith [psa_cpr_nonneg m psa])
        (by norm_num)
    rw [Real.rpow_one] at h1
    linarith
  · have h' : psa_cpr m psa = 1 := le_antisymm (psa_cpr_le_one m psa) h
    have h0 : ((1 : ℝ) - 1) ^ ((1 : ℝ) / 12) = 0 := by
      rw [show (1 : ℝ) - 1 = 0 by norm_num]
      exact Real.zero_rpow (by norm_num)
    rw [h', h0]
    norm_num

/-- Strict monotonicity of the SMM in the clamped CPR. -/
lemma psa_speed_lt_of_cpr_lt (m₁ m₂ : ℕ) (psa₁ psa₂ : ℝ)
    (h : psa_cpr m₁ psa₁ < psa_cpr m₂ psa₂) (h2 : psa_cpr m₂ psa₂ ≤ 1) :
    psa_prepayment_speed m₁ psa₁ < psa_prepayment_speed m₂ psa₂ := by
  unfold psa_prepayment_speed
  have key : (1 - psa_cpr m₂ psa₂) ^ ((1 : ℝ) / 12)
      < (1 - psa_cpr m₁ psa₁) ^ ((1 : ℝ) / 12) :=
    Real.rpow_lt_rpow (by linarith) (by linarith) (by norm_num)
  linarith

/-! ### C1: the CPR ramp does not reach the post-month-30 plateau -/

/-- C1: the claim states that the annualized CPR ramps linearly up to
`0.06 × (psaFactor/100)` at month 30, matching the flat CPR used from month 31
on, so that the rate is continuous at the boundary.  The code disagrees with
itself here: at `psaFactor = 100` the clamped CPR at month 30 is `0.002`
(the ramp `0.002 * (month/30) * 1` peaks at `0.002`), while from month 31 on it
is `0.06`; the ramp stops at one-thirtieth of the plateau and the rate jumps at
the month-30/31 boundary, contradicting the source comment "Ramps to 6% at
100% PSA". -/
theorem claim_C1_cpr_code_bug :
    psa_cpr 30 100 = 0.002 ∧ psa_cpr 31 100 = 0.06 ∧
      psa_cpr 30 100 ≠ 0.06 * (100 / 100) := by
  refine ⟨?_, ?_, ?_⟩
  · unfold psa_cpr
    norm_num
  · unfold psa_cpr
    norm_num
  · unfold psa_cpr
    norm_num

/-! ### C10: the generator ignores its discount-rate argument -/

/-- C10: two calls to `mbs_cash_flows` that agree on principal, coupon rate,
term and PSA factor but differ arbitrarily in the discount-rate argument
return identical cash-flow series: the parameter does not occur in the body. -/
theorem claim_C10_discount_rate_unused (principal coupon_rate : ℝ)
    (term_months : ℕ) (psa_factor d d' : ℝ) :
    mbs_cash_flows principal coupon_rate term_months psa_factor d =
      mbs_cash_flows principal coupon_rate term_months psa_factor d' := rfl

/-! ### C2: the generator performs no input validation -/

lemma mbs_loop_length (r P psa : ℝ) :
    ∀ (k m : ℕ) (b : ℝ), (mbs_loop r P psa k m b).length = k := by
  intro k
  induction k with
  | zero => intro m b; rfl
  | succ k ih =>
    intro m b
    unfold mbs_loop
    by_cases hb : b ≤ 0
    · simp [hb, ih]
    · simp [hb, ih]

lemma mbs_loop_of_nonpos (r P psa : ℝ) :
    ∀ (k m : ℕ) (b : ℝ), b ≤ 0 → mbs_loop r P psa k m b = List.replicate k 0 := by
  intro k
  induction k with
  | zero => intro m b _; rfl
  | succ k ih =>
    intro m b hb
    unfold mbs_loop
    simp [hb, ih (m + 1) b hb, List.replicate_succ]

/-- C2 counterexample: on an invalid input (`principal = -1 ≤ 0`,
`termMonths = 2`) the generator does not fail; it runs to completion and
returns the full two-entry series `[0, 0]`, contradicting the claim that an
InvalidInput error is raised before any computation with no result produced. -/
theorem claim_C2_counterexample :
    mbs_cash_flows (-1) 0 2 0 0 = [0, 0] := by
  have h := mbs_loop_of_nonpos (0 / 12) (monthly_payment (-1) 0 2) 0 2 1 (-1)
    (by norm_num)
  simpa [mbs_cash_flows] using h

/-- C2 amended: `mbs_cash_flows` performs no input validation and never
raises the claimed InvalidInput error.  For `principal ≤ 0` with
`termMonths ≥ 1` it runs to completion and returns an all-zero series of
length exactly `termMonths` — a full result where the claim demands none.
(For `termMonths = 0` the source does fail before the loop, but with a
ZeroDivisionError from the monthly-payment computation — `principal / 0` in
the zero-rate branch, division by `factor - 1 = 0` otherwise — not with the
claimed InvalidInput; that error path lies outside this total embedding, so
this theorem asserts nothing about `termMonths = 0`.) -/
theorem claim_C2_amended (principal coupon_rate psa_factor discount_rate : ℝ)
    (term_months : ℕ) (hn : 1 ≤ term_months) :
    (principal ≤ 0 →
      mbs_cash_flows principal coupon_rate term_months psa_factor discount_rate =
        List.replicate term_months 0) ∧
    (mbs_cash_flows principal coupon_rate term_months psa_factor
        discount_rate).length = term_months := by
  refine ⟨?_, ?_⟩
  · intro hp
    exact mbs_loop_of_nonpos _ _ _ term_months 1 principal hp
  · exact mbs_loop_length _ _ _ term_months 1 principal

/-- C2 witness: the amended statement applied at a concrete invalid input. -/
theorem claim_C2_witness :
    mbs_cash_flows (-2) 1 3 5 7 = List.replicate 3 0 ∧
      (mbs_cash_flows (-2) 1 3 5 7).length = 3 :=
  ⟨(claim_C2_amended (-2) 1 5 7 3 (by norm_num)).1 (by norm_num),
   (claim_C2_amended (-2) 1 5 7 3 (by norm_num)).2⟩

/-! ### Closed forms for one month of the loop -/

lemma balStep_of_nonpos (r P s : ℝ) {b : ℝ} (hb : b ≤ 0) :
    balStep r P s b = b := by
  unfold balStep
  simp [hb]

lemma balStep_zero (r P s : ℝ) : balStep r P s 0 = 0 :=
  balStep_of_nonpos r P s le_rfl

/-- With a nonnegative balance, nonnegative SMM and nonnegative payment, one
month of the loop sends the balance `b` to `max ((1 + r - s) * b - P) 0`. -/
lemma balStep_closed (r P s : ℝ) {b : ℝ} (hb : 0 ≤ b) (hs : 0 ≤ s)
    (hP : 0 ≤ P) : balStep r P s b = max ((1 + r - s) * b - P) 0 := by
  rcases eq_or_lt_of_le hb with hb0 | hb0
  · rw [← hb0, balStep_zero]
    rw [max_eq_right (by nlinarith)]
  · unfold balStep
    rw [if_neg (not_le.mpr hb0)]
    have hbs : 0 ≤ b * s := mul_nonneg hb0.le hs
    rcases le_total (P - b * r) b with h1 | h1
    · rw [min_eq_left h1]
      rcases le_total (P - b * r + b * s) b with h2 | h2
      · rw [min_eq_left h2, max_eq_left (by nlinarith)]
        ring
      · rw [min_eq_right h2, max_eq_right (by nlinarith)]
        ring
    · rw [min_eq_right h1, min_eq_right (by linarith)]
      rw [max_eq_right (by nlinarith)]
      ring

lemma tpStep_eq (r P s b : ℝ) : tpStep r P s b = b - balStep r P s b := by
  unfold tpStep balStep
  by_cases hb : b ≤ 0 <;> simp [hb]

lemma cfStep_eq (r P s : ℝ) {b : ℝ} (hb : 0 ≤ b) :
    cfStep r P s b = (1 + r) * b - balStep r P s b := by
  rcases eq_or_lt_of_le hb with hb0 | hb0
  · rw [← hb0, balStep_zero]
    unfold cfStep
    simp
  · unfold cfStep balStep
    rw [if_neg (not_le.mpr hb0), if_neg (not_le.mpr hb0)]
    ring

/-! ### The loop in terms of the balance recursion -/

lemma mbs_loop_succ (r P psa : ℝ) (k month : ℕ) (b : ℝ) :
    mbs_loop r P psa (k + 1) month b =
      cfStep r P (psa_prepayment_speed month psa) b ::
        mbs_loop r P psa k (month + 1)
          (balStep r P (psa_prepayment_speed month psa) b) := by
  by_cases hb : b ≤ 0 <;> simp [mbs_loop, cfStep, balStep, hb]

lemma mbs_loop_eq_ofFn (r P psa K : ℝ) :
    ∀ (k j : ℕ), mbs_loop r P psa k (j + 1) (mbs_bal r P psa K j) =
      List.ofFn (fun i : Fin k =>
        cfStep r P (psa_prepayment_speed (j + 1 + (i : ℕ)) psa)
          (mbs_bal r P psa K (j + (i : ℕ)))) := by
  intro k
  induction k with
  | zero => intro j; rfl
  | succ k ih =>
    intro j
    rw [mbs_loop_succ]
    have hbal : balStep r P (psa_prepayment_speed (j + 1) psa) (mbs_bal r P psa K j)
        = mbs_bal r P psa K (j + 1) := rfl
    rw [hbal, ih (j + 1), List.ofFn_succ]
    congr 1
    apply congrArg List.ofFn
    funext i
    simp only [Fin.val_succ]
    have e1 : j + 1 + 1 + (i : ℕ) = j + 1 + ((i : ℕ) + 1) := by omega
    have e2 : j + 1 + (i : ℕ) = j + ((i : ℕ) + 1) := by omega
    rw [e1, e2]

/-- The generated series is the month-by-month cash flow of the balance
recursion started at `principal`. -/
lemma mbs_cash_flows_eq_ofFn (K c : ℝ) (n : ℕ) (psa d : ℝ) :
    mbs_cash_flows K c n psa d =
      List.ofFn (fun i : Fin n =>
        cfStep (c / 12) (monthly_payment K c n)
          (psa_prepayment_speed ((i : ℕ) + 1) psa)
          (mbs_bal (c / 12) (monthly_payment K c n) psa K (i : ℕ))) := by
  unfold mbs_cash_flows
  have h := mbs_loop_eq_ofFn (c / 12) (monthly_payment K c n) psa K n 0
  have h0 : mbs_bal (c / 12) (monthly_payment K c n) psa K 0 = K := rfl
  rw [h0] at h
  simp only [Nat.zero_add] at h
  rw [h]
  apply congrArg List.ofFn
  funext i
  rw [Nat.add_comm 1 (i : ℕ)]

/-! ### Positivity of the monthly payment -/

lemma monthly_payment_zero_rate (K : ℝ) (n : ℕ) :
    monthly_payment K 0 n = K / n := by
  unfold monthly_payment
  norm_num

lemma monthly_payment_pos_rate (K c : ℝ) (n : ℕ) (hc : 0 < c) :
    monthly_payment K c n =
      K * (c / 12) * (1 + c / 12) ^ n / ((1 + c / 12) ^ n - 1) := by
  unfold monthly_payment
  rw [if_neg (not_le.mpr (by positivity))]

/-- The payment strictly dominates one month of interest on the full
principal. -/
lemma rate_mul_principal_lt_payment (K c : ℝ) (n : ℕ) (hK : 0 < K)
    (hc : 0 ≤ c) (hn : 1 ≤ n) : (c / 12) * K < monthly_payment K c n := by
  rcases eq_or_lt_of_le hc with hc0 | hc0
  · rw [← hc0, monthly_payment_zero_rate]
    have hn' : (0 : ℝ) < n := by exact_mod_cast hn
    simpa using div_pos hK hn'
  · rw [monthly_payment_pos_rate K c n hc0]
    have hr : (0 : ℝ) < c / 12 := by positivity
    have hf : (1 : ℝ) < (1 + c / 12) ^ n :=
      one_lt_pow₀ (by linarith) (by omega)
    rw [lt_div_iff₀ (by linarith)]
    nlinarith [mul_pos hr hK]

lemma monthly_payment_pos (K c : ℝ) (n : ℕ) (hK : 0 < K) (hc : 0 ≤ c)
    (hn : 1 ≤ n) : 0 < monthly_payment K c n :=
  lt_of_le_of_lt (mul_nonneg (by positivity) hK.le)
    (rate_mul_principal_lt_payment K c n hK hc hn)

/-! ### Balance invariants -/

/-- Along the generation loop the balance stays in `[0, principal]`. -/
lemma mbs_bal_bounds (r P psa K : ℝ) (hr : 0 ≤ r) (hK : 0 < K) (hP : 0 < P)
    (hrK : r * K < P) : ∀ m, 0 ≤ mbs_bal r P psa K m ∧ mbs_bal r P psa K m ≤ K := by
  intro m
  induction m with
  | zero => exact ⟨hK.le, le_rfl⟩
  | succ m ih =>
    have hs := psa_speed_nonneg (m + 1) psa
    have hstep : mbs_bal r P psa K (m + 1)
        = max ((1 + r - psa_prepayment_speed (m + 1) psa) * mbs_bal r P psa K m - P)
          0 := balStep_closed r P _ ih.1 hs hP.le
    constructor
    · rw [hstep]; exact le_max_right _ _
    · rw [hstep]
      apply max_le _ hK.le
      have h1 : r * mbs_bal r P psa K m ≤ r * K :=
        mul_le_mul_of_nonneg_left ih.2 hr
      have h2 : 0 ≤ psa_prepayment_speed (m + 1) psa * mbs_bal r P psa K m :=
        mul_nonneg hs ih.1
      nlinarith [ih.1, ih.2]

lemma mbs_bal_zero_stable (r P psa K : ℝ) {m : ℕ}
    (h : mbs_bal r P psa K m = 0) : ∀ t, mbs_bal r P psa K (m + t) = 0 := by
  intro t
  induction t with
  | zero => exact h
  | succ t ih =>
    show balStep r P _ (mbs_bal r P psa K (m + t)) = 0
    rw [ih, balStep_zero]

/-! ### The annuity reference balance -/

lemma ann_bal_closed (r P K : ℝ) (hr : r ≠ 0) :
    ∀ m, ann_bal r P K m = (K - P / r) * (1 + r) ^ m + P / r := by
  intro m
  induction m with
  | zero =>
    show K = (K - P / r) * (1 + r) ^ 0 + P / r
    field_simp
  | succ m ih =>
    show (1 + r) * ann_bal r P K m - P = _
    rw [ih, pow_succ]
    field_simp
    ring

lemma ann_bal_zero_rate (P K : ℝ) : ∀ m, ann_bal 0 P K m = K - m * P := by
  intro m
  induction m with
  | zero =>
    show K = K - (0 : ℕ) * P
    simp
  | succ m ih =>
    show (1 + 0) * ann_bal 0 P K m - P = _
    rw [ih]
    push_cast
    ring

lemma ann_bal_annuity_closed (r K : ℝ) (n : ℕ) (hr : 0 < r)
    (hf : 1 < (1 + r) ^ n) :
    ∀ m, ann_bal r (K * r * (1 + r) ^ n / ((1 + r) ^ n - 1)) K m
      = K * ((1 + r) ^ n - (1 + r) ^ m) / ((1 + r) ^ n - 1) := by
  intro m
  rw [ann_bal_closed _ _ _ (ne_of_gt hr)]
  have hf1 : (1 + r) ^ n - 1 ≠ 0 := sub_ne_zero.mpr (ne_of_gt hf)
  set f := (1 + r) ^ n with hfdef
  set g := (1 + r) ^ m with hgdef
  field_simp
  ring

lemma ann_bal_mp_closed (K c : ℝ) (n : ℕ) (hc : 0 < c) (hn : 1 ≤ n) :
    ∀ m, ann_bal (c / 12) (monthly_payment K c n) K m =
      K * ((1 + c / 12) ^ n - (1 + c / 12) ^ m) / ((1 + c / 12) ^ n - 1) := by
  have hr : (0 : ℝ) < c / 12 := by positivity
  have hf : (1 : ℝ) < (1 + c / 12) ^ n := one_lt_pow₀ (by linarith) (by omega)
  intro m
  rw [monthly_payment_pos_rate K c n hc]
  exact ann_bal_annuity_closed (c / 12) K n hr hf m

lemma ann_bal_mp_nonneg (K c : ℝ) (n : ℕ) (hK : 0 < K) (hc : 0 ≤ c)
    (hn : 1 ≤ n) :
    ∀ m, m ≤ n → 0 ≤ ann_bal (c / 12) (monthly_payment K c n) K m := by
  intro m hm
  rcases eq_or_lt_of_le hc with hc0 | hc0
  · rw [← hc0, show (0 : ℝ) / 12 = 0 by norm_num, ann_bal_zero_rate,
      monthly_payment_zero_rate]
    have hn' : (0 : ℝ) < n := by exact_mod_cast hn
    have hmn : (m : ℝ) ≤ n := by exact_mod_cast hm
    have h1 : (m : ℝ) * (K / n) ≤ n * (K / n) :=
      mul_le_mul_of_nonneg_right hmn (by positivity)
    have h2 : (n : ℝ) * (K / n) = K := by field_simp
    linarith
  · rw [ann_bal_mp_closed K c n hc0 hn m]
    have hf : (1 : ℝ) < (1 + c / 12) ^ n := one_lt_pow₀ (by
      have : (0 : ℝ) < c / 12 := by positivity
      linarith) (by omega)
    have hfm : (1 + c / 12) ^ m ≤ (1 + c / 12) ^ n :=
      pow_le_pow_right₀ (by
        have : (0 : ℝ) < c / 12 := by positivity
        linarith) hm
    apply div_nonneg (mul_nonneg hK.le (by linarith)) (by linarith)

lemma ann_bal_mp_term (K c : ℝ) (n : ℕ) (hK : 0 < K) (hc : 0 ≤ c)
    (hn : 1 ≤ n) : ann_bal (c / 12) (monthly_payment K c n) K n = 0 := by
  rcases eq_or_lt_of_le hc with hc0 | hc0
  · rw [← hc0, show (0 : ℝ) / 12 = 0 by norm_num, ann_bal_zero_rate,
      monthly_payment_zero_rate]
    have hn' : (n : ℝ) ≠ 0 := Nat.cast_ne_zero.mpr (by omega)
    field_simp
  · rw [ann_bal_mp_closed K c n hc0 hn n]
    simp

/-- The generator's balance is dominated by the prepayment-free annuity
balance. -/
lemma mbs_bal_le_ann (r P psa K : ℝ) (n : ℕ) (hr : 0 ≤ r) (hK : 0 < K)
    (hP : 0 < P) (hrK : r * K < P)
    (hann : ∀ m, m ≤ n → 0 ≤ ann_bal r P K m) :
    ∀ m, m ≤ n → mbs_bal r P psa K m ≤ ann_bal r P K m := by
  intro m
  induction m with
  | zero => intro _; exact le_of_eq rfl
  | succ m ih =>
    intro hm1
    have hm : m ≤ n := by omega
    have hb := (mbs_bal_bounds r P psa K hr hK hP hrK m).1
    have hs := psa_speed_nonneg (m + 1) psa
    have hstep : mbs_bal r P psa K (m + 1)
        = max ((1 + r - psa_prepayment_speed (m + 1) psa) * mbs_bal r P psa K m
            - P) 0 :=
      balStep_closed r P _ hb hs hP.le
    have hA : ann_bal r P K (m + 1) = (1 + r) * ann_bal r P K m - P := rfl
    rw [hstep, hA]
    apply max_le
    · have h1 : mbs_bal r P psa K m ≤ ann_bal r P K m := ih hm
      have h2 : 0 ≤ psa_prepayment_speed (m + 1) psa * mbs_bal r P psa K m :=
        mul_nonneg hs hb
      nlinarith [mul_le_mul_of_nonneg_left h1 (show (0 : ℝ) ≤ 1 + r by linarith)]
    · have h3 := hann (m + 1) hm1
      rw [hA] at h3
      exact h3

/-- With valid inputs the outstanding balance is exactly exhausted at the final
month. -/
lemma mbs_bal_term_zero (K c psa : ℝ) (n : ℕ) (hK : 0 < K) (hc : 0 ≤ c)
    (hn : 1 ≤ n) :
    mbs_bal (c / 12) (monthly_payment K c n) psa K n = 0 := by
  have hr : (0 : ℝ) ≤ c / 12 := by positivity
  have hP := monthly_payment_pos K c n hK hc hn
  have hrK := rate_mul_principal_lt_payment K c n hK hc hn
  have h1 := mbs_bal_le_ann (c / 12) (monthly_payment K c n) psa K n hr hK hP hrK
    (ann_bal_mp_nonneg K c n hK hc hn) n le_rfl
  rw [ann_bal_mp_term K c n hK hc hn] at h1
  exact le_antisymm h1 (mbs_bal_bounds _ _ _ _ hr hK hP hrK n).1

/-! ### Sign of the monthly cash flow -/

lemma cfStep_zero (r P s : ℝ) : cfStep r P s 0 = 0 := by
  simp [cfStep]

lemma cfStep_pos (r P s K b : ℝ) (hr : 0 ≤ r) (hs : 0 ≤ s) (hrK : r * K < P)
    (hb : 0 < b) (hbK : b ≤ K) : 0 < cfStep r P s b := by
  unfold cfStep
  rw [if_neg (not_le.mpr hb)]
  have h1 : 0 < P - b * r := by nlinarith [mul_le_mul_of_nonneg_right hbK hr]
  have h2 : 0 < min (P - b * r) b := lt_min h1 hb
  have h3 : 0 ≤ b * s := mul_nonneg hb.le hs
  have h4 : 0 < min (min (P - b * r) b + b * s) b := lt_min (by linarith) hb
  have h5 : 0 ≤ b * r := mul_nonneg hb.le hr
  linarith

lemma cfStep_nonneg (r P s K b : ℝ) (hr : 0 ≤ r) (hs : 0 ≤ s) (hrK : r * K < P)
    (hb : 0 ≤ b) (hbK : b ≤ K) : 0 ≤ cfStep r P s b := by
  rcases eq_or_lt_of_le hb with h | h
  · rw [← h, cfStep_zero]
  · exact (cfStep_pos r P s K b hr hs hrK h hbK).le

/-- Entry `i` (0-based) of the generated series. -/
lemma mbs_cash_flows_getD (K c psa d : ℝ) (n i : ℕ) (hi : i < n) :
    (mbs_cash_flows K c n psa d).getD i 0 =
      cfStep (c / 12) (monthly_payment K c n) (psa_prepayment_speed (i + 1) psa)
        (mbs_bal (c / 12) (monthly_payment K c n) psa K i) := by
  rw [mbs_cash_flows_eq_ofFn]
  rw [List.getD_eq_getElem _ _ (by simpa using hi)]
  simp

/-! ### C7: length and non-negativity of the generated series -/

/-- C7: for every valid `LoanTerms` (`principal > 0`, `couponRate ≥ 0`,
`termMonths ≥ 1`) and `psaFactor ≥ 0`, the generated series has length exactly
`termMonths` and every entry is non-negative. -/
theorem claim_C7_length_nonneg (principal coupon_rate psa_factor discount_rate : ℝ)
    (term_months : ℕ) (hK : 0 < principal) (hc : 0 ≤ coupon_rate)
    (hpsa : 0 ≤ psa_factor) (hn : 1 ≤ term_months) :
    (mbs_cash_flows principal coupon_rate term_months psa_factor
        discount_rate).length = term_months ∧
      ∀ x ∈ mbs_cash_flows principal coupon_rate term_months psa_factor
        discount_rate, 0 ≤ x := by
  have hr : (0 : ℝ) ≤ coupon_rate / 12 := by positivity
  have hP := monthly_payment_pos principal coupon_rate term_months hK hc hn
  have hrK := rate_mul_principal_lt_payment principal coupon_rate term_months hK hc hn
  refine ⟨mbs_loop_length _ _ _ _ _ _, ?_⟩
  intro x hx
  rw [mbs_cash_flows_eq_ofFn, List.mem_ofFn] at hx
  obtain ⟨i, hi⟩ := hx
  rw [← hi]
  have hb := mbs_bal_bounds (coupon_rate / 12)
    (monthly_payment principal coupon_rate term_months) psa_factor principal
    hr hK hP hrK (i : ℕ)
  exact cfStep_nonneg _ _ _ principal _ hr (psa_speed_nonneg _ _) hrK hb.1 hb.2

/-- C7 witness: concrete valid input. -/
theorem claim_C7_witness :
    (mbs_cash_flows 1 0 1 0 0).length = 1 ∧
      ∀ x ∈ mbs_cash_flows 1 0 1 0 0, 0 ≤ x :=
  claim_C7_length_nonneg 1 0 0 0 1 (by norm_num) (by norm_num) (by norm_num)
    (by norm_num)

/-! ### C5: total principal never exceeds the original principal -/

/-- C5: for every valid input, the sum over all months of the
`total_principal` applied by the generator is at most `principal`;
equivalently the outstanding balance stays non-negative after every month. -/
theorem claim_C5_no_overpayment (principal coupon_rate psa_factor : ℝ)
    (term_months : ℕ) (hK : 0 < principal) (hc : 0 ≤ coupon_rate)
    (hpsa : 0 ≤ psa_factor) (hn : 1 ≤ term_months) :
    (∑ i in Finset.range term_months,
        tpStep (coupon_rate / 12) (monthly_payment principal coupon_rate term_months)
          (psa_prepayment_speed (i + 1) psa_factor)
          (mbs_bal (coupon_rate / 12)
            (monthly_payment principal coupon_rate term_months) psa_factor
            principal i)) ≤ principal ∧
      ∀ m, 0 ≤ mbs_bal (coupon_rate / 12)
          (monthly_payment principal coupon_rate term_months) psa_factor
          principal m := by
  have hr : (0 : ℝ) ≤ coupon_rate / 12 := by positivity
  have hP := monthly_payment_pos principal coupon_rate term_months hK hc hn
  have hrK := rate_mul_principal_lt_payment principal coupon_rate term_months hK hc hn
  have hbounds := mbs_bal_bounds (coupon_rate / 12)
    (monthly_payment principal coupon_rate term_months) psa_factor principal
    hr hK hP hrK
  constructor
  · have hsum : ∀ i ∈ Finset.range term_months,
        tpStep (coupon_rate / 12)
          (monthly_payment principal coupon_rate term_months)
          (psa_prepayment_speed (i + 1) psa_factor)
          (mbs_bal (coupon_rate / 12)
            (monthly_payment principal coupon_rate term_months) psa_factor
            principal i)
        = mbs_bal (coupon_rate / 12)
            (monthly_payment principal coupon_rate term_months) psa_factor
            principal i -
          mbs_bal (coupon_rate / 12)
            (monthly_payment principal coupon_rate term_months) psa_factor
            principal (i + 1) := by
      intro i _
      rw [tpStep_eq]
      rfl
    rw [Finset.sum_congr rfl hsum, Finset.sum_range_sub']
    have h0 : mbs_bal (coupon_rate / 12)
        (monthly_payment principal coupon_rate term_months) psa_factor
        principal 0 = principal := rfl
    rw [h0]
    linarith [(hbounds term_months).1]
  · intro m
    exact (hbounds m).1

/-- C5 witness: concrete valid input. -/
theorem claim_C5_witness :
    (∑ i in Finset.range 1,
        tpStep (0 / 12) (monthly_payment 1 0 1) (psa_prepayment_speed (i + 1) 0)
          (mbs_bal (0 / 12) (monthly_payment 1 0 1) 0 1 i)) ≤ 1 ∧
      ∀ m, 0 ≤ mbs_bal (0 / 12) (monthly_payment 1 0 1) 0 1 m :=
  claim_C5_no_overpayment 1 0 0 1 (by norm_num) (by norm_num) (by norm_num)
    (by norm_num)

/-! ### C6: a zero cash flow is followed only by zero cash flows -/

/-- C6: in a series generated from valid inputs, once an entry is `0` every
subsequent entry is `0` as well: a zero cash flow can only arise from a zero
balance, and a zero balance stays zero. -/
theorem claim_C6_monotone_termination (principal coupon_rate psa_factor
    discount_rate : ℝ) (term_months i j : ℕ) (hK : 0 < principal)
    (hc : 0 ≤ coupon_rate) (hpsa : 0 ≤ psa_factor) (hij : i ≤ j)
    (hj : j < term_months)
    (h0 : (mbs_cash_flows principal coupon_rate term_months psa_factor
      discount_rate).getD i 0 = 0) :
    (mbs_cash_flows principal coupon_rate term_months psa_factor
      discount_rate).getD j 0 = 0 := by
  have hn : 1 ≤ term_months := by omega
  have hr : (0 : ℝ) ≤ coupon_rate / 12 := by positivity
  have hP := monthly_payment_pos principal coupon_rate term_months hK hc hn
  have hrK := rate_mul_principal_lt_payment principal coupon_rate term_months hK hc hn
  have hbounds := mbs_bal_bounds (coupon_rate / 12)
    (monthly_payment principal coupon_rate term_months) psa_factor principal
    hr hK hP hrK
  have hi : i < term_months := lt_of_le_of_lt hij hj
  have hBi : mbs_bal (coupon_rate / 12)
      (monthly_payment principal coupon_rate term_months) psa_factor principal i
      = 0 := by
    by_contra hne
    have hpos : 0 < mbs_bal (coupon_rate / 12)
        (monthly_payment principal coupon_rate term_months) psa_factor
        principal i := lt_of_le_of_ne (hbounds i).1 (Ne.symm hne)
    have hcf := cfStep_pos (coupon_rate / 12)
      (monthly_payment principal coupon_rate term_months)
      (psa_prepayment_speed (i + 1) psa_factor) principal _
      hr (psa_speed_nonneg _ _) hrK hpos (hbounds i).2
    rw [mbs_cash_flows_getD principal coupon_rate psa_factor discount_rate
      term_months i hi] at h0
    exact absurd h0 (ne_of_gt hcf)
  have hBj : mbs_bal (coupon_rate / 12)
      (monthly_payment principal coupon_rate term_months) psa_factor principal j
      = 0 := by
    have := mbs_bal_zero_stable (coupon_rate / 12)
      (monthly_payment principal coupon_rate term_months) psa_factor principal
      hBi (j - i)
    rwa [show i + (j - i) = j by omega] at this
  rw [mbs_cash_flows_getD principal coupon_rate psa_factor discount_rate
    term_months j hj, hBj, cfStep_zero]

/-- C6 witness: with a very large PSA factor the whole balance prepays in
month 1, so entry 1 (0-based) of a 2-month loan is `0`; the claim theorem is
applied at `i = j = 1`. -/
lemma mbs_bal_zero_month (r P psa K : ℝ) : mbs_bal r P psa K 0 = K := rfl

lemma mbs_bal_succ (r P psa K : ℝ) (m : ℕ) :
    mbs_bal r P psa K (m + 1) =
      balStep r P (psa_prepayment_speed (m + 1) psa) (mbs_bal r P psa K m) := rfl

theorem claim_C6_witness :
    (mbs_cash_flows 1 0 2 2000000 0).getD 1 0 = 0 := by
  have hsmm : psa_prepayment_speed 1 2000000 = 1 := by
    have hc : psa_cpr 1 2000000 = 1 := by
      simp only [psa_cpr]
      rw [if_pos (by norm_num : (1 : ℕ) ≤ 30)]
      norm_num [min_def, max_def]
    unfold psa_prepayment_speed
    rw [hc, show (1 : ℝ) - 1 = 0 by norm_num, Real.zero_rpow (by norm_num)]
    norm_num
  have h0 : (mbs_cash_flows 1 0 2 2000000 0).getD 1 0 = 0 := by
    rw [mbs_cash_flows_getD 1 0 2000000 0 2 1 (by norm_num)]
    have hb1 : mbs_bal (0 / 12) (monthly_payment 1 0 2) 2000000 1 1 = 0 := by
      have e : mbs_bal (0 / 12) (monthly_payment 1 0 2) 2000000 1 1
          = balStep (0 / 12) (monthly_payment 1 0 2)
              (psa_prepayment_speed 1 2000000) 1 := by
        rw [show (1 : ℕ) = 0 + 1 from rfl, mbs_bal_succ, mbs_bal_zero_month]
      rw [e, hsmm, monthly_payment_zero_rate]
      unfold balStep
      norm_num [min_def]
    rw [hb1, cfStep_zero]
  exact claim_C6_monotone_termination 1 0 2000000 0 2 1 1 (by norm_num)
    (by norm_num) (by norm_num) le_rfl (by norm_num) h0

/-! ### C8: zero coupon and zero PSA give exact straight-line repayment -/

lemma psa_cpr_psa_zero (m : ℕ) : psa_cpr m 0 = 0 := by
  simp only [psa_cpr]
  by_cases h : m ≤ 30
  · rw [if_pos h]
    norm_num [min_def, max_def]
  · rw [if_neg h]
    norm_num [min_def, max_def]

lemma psa_speed_psa_zero (m : ℕ) : psa_prepayment_speed m 0 = 0 := by
  unfold psa_prepayment_speed
  rw [psa_cpr_psa_zero, show (1 : ℝ) - 0 = 1 by norm_num, Real.one_rpow]
  norm_num

/-- With zero coupon and zero PSA the balance declines by exactly
`principal / termMonths` each month. -/
lemma mbs_bal_straight (K : ℝ) (n : ℕ) (hK : 0 < K) (hn : 1 ≤ n) :
    ∀ m, m ≤ n →
      mbs_bal (0 / 12) (monthly_payment K 0 n) 0 K m = K - m * (K / n) := by
  have hmp : monthly_payment K 0 n = K / n := monthly_payment_zero_rate K n
  have hn' : (0 : ℝ) < n := by exact_mod_cast hn
  intro m
  induction m with
  | zero =>
    intro _
    show K = K - ((0 : ℕ) : ℝ) * (K / n)
    simp
  | succ m ih =>
    intro hm1
    have hm : m ≤ n := by omega
    have ihm := ih hm
    show balStep (0 / 12) (monthly_payment K 0 n) (psa_prepayment_speed (m + 1) 0)
      (mbs_bal (0 / 12) (monthly_payment K 0 n) 0 K m) = _
    rw [psa_speed_psa_zero, ihm, hmp]
    have hcast : ((m : ℕ) : ℝ) ≤ n := by exact_mod_cast hm
    have hcast1 : ((m : ℕ) : ℝ) + 1 ≤ n := by
      have : ((m + 1 : ℕ) : ℝ) ≤ n := by exact_mod_cast hm1
      push_cast at this
      linarith
    have hKn : (n : ℝ) * (K / n) = K := by field_simp
    have hb : 0 ≤ K - (m : ℝ) * (K / n) := by
      have h1 : (m : ℝ) * (K / n) ≤ n * (K / n) :=
        mul_le_mul_of_nonneg_right hcast (by positivity)
      linarith
    rw [balStep_closed _ _ _ hb le_rfl (by positivity : (0 : ℝ) ≤ K / n)]
    have hexp : (1 + 0 / 12 - 0) * (K - (m : ℝ) * (K / n)) - K / n
        = K - ((m : ℝ) + 1) * (K / n) := by
      norm_num
      ring
    rw [hexp]
    have hb1 : 0 ≤ K - ((m : ℝ) + 1) * (K / n) := by
      have h1 : ((m : ℝ) + 1) * (K / n) ≤ n * (K / n) :=
        mul_le_mul_of_nonneg_right hcast1 (by positivity)
      linarith
    rw [max_eq_left hb1]
    push_cast
    ring

/-- C8: with coupon rate 0 and psaFactor 0 every monthly cash flow equals
`principal / termMonths` exactly and the series sums to exactly `principal`. -/
theorem claim_C8_straight_line (principal discount_rate : ℝ) (term_months : ℕ)
    (hK : 0 < principal) (hn : 1 ≤ term_months) :
    mbs_cash_flows principal 0 term_months 0 discount_rate =
      List.replicate term_months (principal / term_months) ∧
    (mbs_cash_flows principal 0 term_months 0 discount_rate).sum = principal := by
  have hn' : (0 : ℝ) < term_months := by exact_mod_cast hn
  have hrepl : mbs_cash_flows principal 0 term_months 0 discount_rate =
      List.replicate term_months (principal / term_months) := by
    rw [mbs_cash_flows_eq_ofFn, List.eq_replicate_iff]
    constructor
    · simp
    · intro b hb
      rw [List.mem_ofFn] at hb
      obtain ⟨i, hi⟩ := hb
      rw [← hi]
      show cfStep (0 / 12) (monthly_payment principal 0 term_months)
          (psa_prepayment_speed ((i : ℕ) + 1) 0)
          (mbs_bal (0 / 12) (monthly_payment principal 0 term_months) 0 principal
            (i : ℕ))
        = principal / term_months
      have hi_lt : (i : ℕ) < term_months := i.isLt
      have hBi := mbs_bal_straight principal term_months hK hn (i : ℕ)
        (le_of_lt hi_lt)
      have hBi1 := mbs_bal_straight principal term_months hK hn ((i : ℕ) + 1)
        hi_lt
      have hb0 : 0 ≤ mbs_bal (0 / 12) (monthly_payment principal 0 term_months)
          0 principal (i : ℕ) := by
        rw [hBi]
        have hcast : ((i : ℕ) : ℝ) ≤ term_months := by
          exact_mod_cast le_of_lt hi_lt
        have h1 : ((i : ℕ) : ℝ) * (principal / term_months)
            ≤ term_months * (principal / term_months) :=
          mul_le_mul_of_nonneg_right hcast (by positivity)
        have hKn : (term_months : ℝ) * (principal / term_months) = principal := by
          field_simp
        linarith
      rw [cfStep_eq _ _ _ hb0]
      have hstep : balStep (0 / 12) (monthly_payment principal 0 term_months)
          (psa_prepayment_speed ((i : ℕ) + 1) 0)
          (mbs_bal (0 / 12) (monthly_payment principal 0 term_months) 0 principal
            (i : ℕ))
          = mbs_bal (0 / 12) (monthly_payment principal 0 term_months) 0
              principal ((i : ℕ) + 1) := rfl
      rw [hstep, hBi, hBi1]
      push_cast
      norm_num
      ring
  refine ⟨hrepl, ?_⟩
  rw [hrepl, List.sum_replicate, nsmul_eq_mul]
  field_simp

/-- C8 witness: the spec's example, `principal = 120000`, `termMonths = 12`. -/
theorem claim_C8_witness :
    mbs_cash_flows 120000 0 12 0 0 =
      List.replicate 12 ((120000 : ℝ) / ((12 : ℕ) : ℝ)) ∧
    (mbs_cash_flows 120000 0 12 0 0).sum = 120000 :=
  claim_C8_straight_line 120000 0 12 (by norm_num) (by norm_num)

/-! ### C3: WAL of a degenerate series -/

lemma list_sum_eq_sum_getD (l : List ℝ) :
    ∑ i in Finset.range l.length, l.getD i 0 = l.sum := by
  induction l with
  | nil => simp
  | cons a t ih =>
    rw [List.length_cons, Finset.sum_range_succ']
    simp only [List.getD_cons_succ, List.getD_cons_zero]
    rw [ih, List.sum_cons]
    ring

/-- C3 counterexample: on an all-zero series `calculate_wal` does not signal
any error; it evaluates the quotient `0 / 0` unconditionally and returns a
plain value (NaN in the NumPy implementation, `0` in this exact-real
embedding), contradicting the claim that a DegenerateSeries / DivisionByZero
error is explicitly signalled. -/
theorem claim_C3_counterexample : calculate_wal [0, 0, 0] = 0 := by
  unfold calculate_wal
  simp [Finset.sum_range_succ]

/-- C3 amended: `calculate_wal` performs no degeneracy check: on an all-zero
series it returns the unchecked quotient (`0/0`, i.e. NaN in floating point,
the junk value `0` in the exact-real embedding) instead of signalling an
error; for every series of non-negative entries with at least one positive
entry it returns a finite positive real. -/
theorem claim_C3_amended (cfs : List ℝ) :
    ((∀ x ∈ cfs, x = 0) → calculate_wal cfs = 0) ∧
    ((∀ x ∈ cfs, 0 ≤ x) → (∃ x ∈ cfs, 0 < x) → 0 < calculate_wal cfs) := by
  constructor
  · intro hall
    unfold calculate_wal
    have hnum : ∑ i in Finset.range cfs.length, cfs.getD i 0 * ((i : ℝ) + 1)
        = 0 := by
      apply Finset.sum_eq_zero
      intro i hi
      rw [Finset.mem_range] at hi
      rw [List.getD_eq_getElem _ _ hi, hall _ (List.getElem_mem _)]
      ring
    rw [hnum, zero_div]
  · intro hnn hex
    unfold calculate_wal
    have hsum_pos : 0 < cfs.sum := by
      rw [← list_sum_eq_sum_getD]
      obtain ⟨x, hx, hx0⟩ := hex
      obtain ⟨i, hi, hieq⟩ := List.mem_iff_getElem.mp hx
      apply Finset.sum_pos'
      · intro j hj
        rw [Finset.mem_range] at hj
        rw [List.getD_eq_getElem _ _ hj]
        exact hnn _ (List.getElem_mem _)
      · refine ⟨i, Finset.mem_range.mpr hi, ?_⟩
        rw [List.getD_eq_getElem _ _ hi, hieq]
        exact hx0
    have hnum_ge : cfs.sum
        ≤ ∑ i in Finset.range cfs.length, cfs.getD i 0 * ((i : ℝ) + 1) := by
      rw [← list_sum_eq_sum_getD]
      apply Finset.sum_le_sum
      intro i hi
      rw [Finset.mem_range] at hi
      have hx : 0 ≤ cfs.getD i 0 := by
        rw [List.getD_eq_getElem _ _ hi]
        exact hnn _ (List.getElem_mem _)
      have hone : (1 : ℝ) ≤ (i : ℝ) + 1 := by
        have : (0 : ℝ) ≤ (i : ℝ) := Nat.cast_nonneg i
        linarith
      nlinarith
    exact div_pos (lt_of_lt_of_le hsum_pos hnum_ge) hsum_pos

/-- C3 witness: the amended statement applied to a concrete series with a
positive entry. -/
theorem claim_C3_witness : 0 < calculate_wal [0, 2] :=
  (claim_C3_amended [0, 2]).2 (by norm_num) ⟨2, by norm_num, by norm_num⟩

/-! ### C9: the pricing formula -/

/-- C9: `price_mbs` equals `Σ cashFlow[i] * (1 + d/12) ^ (-(i+1))`; at discount
rate 0 it equals the plain sum of the series; and it is non-negative for every
series of non-negative entries and every `d ≥ 0`. -/
theorem claim_C9_price_formula (cfs : List ℝ) (d : ℝ) :
    price_mbs cfs d = (∑ i in Finset.range cfs.length,
        cfs.getD i 0 * (1 + d / 12) ^ (-((i : ℤ) + 1))) ∧
    price_mbs cfs 0 = cfs.sum ∧
    (0 ≤ d → (∀ x ∈ cfs, 0 ≤ x) → 0 ≤ price_mbs cfs d) := by
  refine ⟨rfl, ?_, ?_⟩
  · unfold price_mbs
    rw [← list_sum_eq_sum_getD]
    apply Finset.sum_congr rfl
    intro i _
    norm_num
  · intro hd hnn
    unfold price_mbs
    apply Finset.sum_nonneg
    intro i hi
    rw [Finset.mem_range] at hi
    apply mul_nonneg
    · rw [List.getD_eq_getElem _ _ hi]
      exact hnn _ (List.getElem_mem _)
    · have hbase : (0 : ℝ) < 1 + d / 12 := by
        have := div_nonneg hd (by norm_num : (0 : ℝ) ≤ 12)
        linarith
      exact (zpow_pos hbase _).le

/-- C9 witness: the formula applied to a concrete series at discount rate 0. -/
theorem claim_C9_witness :
    price_mbs [1, 3] 0 = List.sum [1, 3] ∧ 0 ≤ price_mbs [1, 3] 0 :=
  ⟨(claim_C9_price_formula [1, 3] 0).2.1,
   (claim_C9_price_formula [1, 3] 0).2.2 le_rfl (by norm_num)⟩

/-! ### C4: WAL under PSA 100 versus PSA 200 -/

/-- For a one-month loan the single cash flow is the whole balance plus
interest, regardless of the PSA factor, so the WAL is 1 for every PSA. -/
lemma wal_one_month (psa : ℝ) :
    calculate_wal (mbs_cash_flows 100 0 1 psa 0) = 1 := by
  have hmp : monthly_payment 100 0 1 = 100 := by
    rw [monthly_payment_zero_rate]
    norm_num
  have hs := psa_speed_nonneg 1 psa
  have hcf : cfStep (0 / 12) (monthly_payment 100 0 1)
      (psa_prepayment_speed 1 psa) 100 = 100 := by
    rw [hmp]
    unfold cfStep
    rw [if_neg (by norm_num : ¬(100 : ℝ) ≤ 0)]
    rw [show (100 : ℝ) * (0 / 12) = 0 by norm_num]
    rw [show (100 : ℝ) - 0 = 100 by norm_num, min_self]
    rw [min_eq_right (by nlinarith :
      (100 : ℝ) ≤ 100 + 100 * psa_prepayment_speed 1 psa)]
    norm_num
  have hlist : mbs_cash_flows 100 0 1 psa 0 = [100] := by
    show mbs_loop (0 / 12) (monthly_payment 100 0 1) psa (0 + 1) 1 100 = [100]
    rw [mbs_loop_succ, hcf]
    rfl
  rw [hlist]
  unfold calculate_wal
  simp [Finset.sum_range_succ]

/-- C4 counterexample: at `termMonths = 1` (`principal = 100`, coupon 0) the
WAL equals 1 for PSA 200 and PSA 100 alike, so moving the PSA factor from 100
to 200 does not strictly decrease the WAL. -/
theorem claim_C4_counterexample :
    calculate_wal (mbs_cash_flows 100 0 1 200 0)
      = calculate_wal (mbs_cash_flows 100 0 1 100 0) := by
  rw [wal_one_month, wal_one_month]

lemma psa_cpr_eval_ramp (m : ℕ) (psa : ℝ) (hm : m ≤ 30) (h0 : 0 ≤ psa)
    (h1 : 0.002 * ((m : ℝ) / 30) * (psa / 100) ≤ 1) :
    psa_cpr m psa = 0.002 * ((m : ℝ) / 30) * (psa / 100) := by
  simp only [psa_cpr]
  rw [if_pos hm]
  have hnn' : (0 : ℝ) ≤ 0.002 * ((m : ℝ) / 30) * (psa / 100) :=
    mul_nonneg (mul_nonneg (by norm_num)
      (div_nonneg (Nat.cast_nonneg m) (by norm_num))) (div_nonneg h0 (by norm_num))
  have hnn : (0.0 : ℝ) ≤ 0.002 * ((m : ℝ) / 30) * (psa / 100) :=
    le_trans (by norm_num) hnn'
  rw [max_eq_left hnn, min_eq_left (by linarith)]

lemma psa_cpr_eval_flat (m : ℕ) (psa : ℝ) (hm : ¬m ≤ 30) (h0 : 0 ≤ psa)
    (h1 : 0.06 * (psa / 100) ≤ 1) :
    psa_cpr m psa = 0.06 * (psa / 100) := by
  simp only [psa_cpr]
  rw [if_neg hm]
  have hnn' : (0 : ℝ) ≤ 0.06 * (psa / 100) :=
    mul_nonneg (by norm_num) (div_nonneg h0 (by norm_num))
  have hnn : (0.0 : ℝ) ≤ 0.06 * (psa / 100) := le_trans (by norm_num) hnn'
  rw [max_eq_left hnn, min_eq_left (by linarith)]

/-- For every month `m ≥ 1` the clamped CPR at PSA 100 is positive, strictly
below the CPR at PSA 200, which stays strictly below 1. -/
lemma psa_cpr_100_200 (m : ℕ) (hm : 1 ≤ m) :
    0 < psa_cpr m 100 ∧ psa_cpr m 100 < psa_cpr m 200 ∧ psa_cpr m 200 < 1 := by
  by_cases h : m ≤ 30
  · have hm1 : (1 : ℝ) ≤ (m : ℝ) := by exact_mod_cast hm
    have hm30 : (m : ℝ) ≤ 30 := by exact_mod_cast h
    rw [psa_cpr_eval_ramp m 100 h (by norm_num) (by nlinarith),
      psa_cpr_eval_ramp m 200 h (by norm_num) (by nlinarith)]
    refine ⟨by nlinarith, by nlinarith, by nlinarith⟩
  · rw [psa_cpr_eval_flat m 100 h (by norm_num) (by norm_num),
      psa_cpr_eval_flat m 200 h (by norm_num) (by norm_num)]
    norm_num

/-- The month-1 SMM at PSA 200 is at most its CPR, `1/7500`. -/
lemma psa_speed_one_200_le : psa_prepayment_speed 1 200 ≤ 1 / 7500 := by
  have hc : psa_cpr 1 200 = 1 / 7500 := by
    rw [psa_cpr_eval_ramp 1 200 (by norm_num) (by norm_num) (by norm_num)]
    norm_num
  calc psa_prepayment_speed 1 200 ≤ psa_cpr 1 200 := psa_speed_le_cpr 1 200
  _ = 1 / 7500 := hc

/-- One step of the loop is antitone in the SMM and monotone in the balance. -/
lemma balStep_mono (r P s s' b b' : ℝ) (hr : 0 ≤ r) (hP : 0 ≤ P)
    (hb' : 0 ≤ b') (hbb : b' ≤ b) (hs : 0 ≤ s) (hss : s ≤ s') (hs1 : s' ≤ 1) :
    balStep r P s' b' ≤ balStep r P s b := by
  rw [balStep_closed r P s' hb' (le_trans hs hss) hP,
    balStep_closed r P s (le_trans hb' hbb) hs hP]
  apply max_le_max _ le_rfl
  have h1 : (1 + r - s') * b' ≤ (1 + r - s') * b :=
    mul_le_mul_of_nonneg_left hbb (by linarith)
  have h2 : (1 + r - s') * b ≤ (1 + r - s) * b :=
    mul_le_mul_of_nonneg_right (by linarith) (le_trans hb' hbb)
  linarith

/-- One step of the loop shrinks the faster-prepaying balance at least
proportionally: `step s' b' * b ≤ b' * step s b` when `b' ≤ b`, `s ≤ s'`. -/
lemma balStep_cross (r P s s' b b' : ℝ) (hr : 0 ≤ r) (hP : 0 ≤ P)
    (hb' : 0 ≤ b') (hbb : b' ≤ b) (hs : 0 ≤ s) (hss : s ≤ s') (hs1 : s' ≤ 1) :
    balStep r P s' b' * b ≤ b' * balStep r P s b := by
  have hb : 0 ≤ b := le_trans hb' hbb
  rw [balStep_closed r P s' hb' (le_trans hs hss) hP,
    balStep_closed r P s hb hs hP]
  rcases le_or_lt ((1 + r - s') * b' - P) 0 with h | h
  · rw [max_eq_right h, zero_mul]
    exact mul_nonneg hb' (le_max_right _ _)
  · rw [max_eq_left h.le]
    have h2 : b' * ((1 + r - s) * b - P) ≤ b' * max ((1 + r - s) * b - P) 0 :=
      mul_le_mul_of_nonneg_left (le_max_left _ _) hb'
    have h3 : ((1 + r - s') * b' - P) * b ≤ b' * ((1 + r - s) * b - P) := by
      nlinarith [mul_nonneg (mul_nonneg hb' hb) (sub_nonneg.mpr hss),
        mul_nonneg hP (sub_nonneg.mpr hbb)]
    linarith

/-- Pointwise balance dominance: the PSA-200 balance never exceeds the
PSA-100 balance. -/
lemma mbs_bal_200_le_100 (r P K : ℝ) (hr : 0 ≤ r) (hK : 0 < K) (hP : 0 < P)
    (hrK : r * K < P) :
    ∀ m, mbs_bal r P 200 K m ≤ mbs_bal r P 100 K m := by
  intro m
  induction m with
  | zero => exact le_rfl
  | succ m ih =>
    have hb2 := mbs_bal_bounds r P 200 K hr hK hP hrK m
    have hcpr := psa_cpr_100_200 (m + 1) (by omega)
    have hs12 : psa_prepayment_speed (m + 1) 100
        ≤ psa_prepayment_speed (m + 1) 200 :=
      (psa_speed_lt_of_cpr_lt _ _ _ _ hcpr.2.1 hcpr.2.2.le).le
    rw [mbs_bal_succ, mbs_bal_succ]
    exact balStep_mono r P _ _ _ _ hr hP.le hb2.1 ih (psa_speed_nonneg _ _)
      hs12 (psa_speed_le_one _ _)

/-- Cross dominance: the PSA-200 balance decays at least proportionally faster,
month over month. -/
lemma mbs_bal_cross_chain (r P K : ℝ) (hr : 0 ≤ r) (hK : 0 < K) (hP : 0 < P)
    (hrK : r * K < P) :
    ∀ j k, k ≤ j → mbs_bal r P 200 K j * mbs_bal r P 100 K k
      ≤ mbs_bal r P 100 K j * mbs_bal r P 200 K k := by
  intro j
  induction j with
  | zero =>
    intro k hk
    have hk0 : k = 0 := by omega
    rw [hk0]
    exact le_of_eq (mul_comm _ _)
  | succ j ih =>
    intro k hk
    rcases Nat.eq_or_lt_of_le hk with heq | hlt
    · rw [← heq]
      exact le_of_eq (mul_comm _ _)
    · have hkj : k ≤ j := by omega
      have ihk := ih k hkj
      have hb2j := mbs_bal_bounds r P 200 K hr hK hP hrK j
      have hb1j := mbs_bal_bounds r P 100 K hr hK hP hrK j
      have hb1j1 := mbs_bal_bounds r P 100 K hr hK hP hrK (j + 1)
      have hb2j1 := mbs_bal_bounds r P 200 K hr hK hP hrK (j + 1)
      have hb1k := mbs_bal_bounds r P 100 K hr hK hP hrK k
      have hb2k := mbs_bal_bounds r P 200 K hr hK hP hrK k
      have hdom := mbs_bal_200_le_100 r P K hr hK hP hrK j
      have hcpr := psa_cpr_100_200 (j + 1) (by omega)
      have hstep : mbs_bal r P 200 K (j + 1) * mbs_bal r P 100 K j
          ≤ mbs_bal r P 200 K j * mbs_bal r P 100 K (j + 1) := by
        rw [mbs_bal_succ, mbs_bal_succ]
        exact balStep_cross r P _ _ _ _ hr hP.le hb2j.1 hdom
          (psa_speed_nonneg _ _)
          (psa_speed_lt_of_cpr_lt _ _ _ _ hcpr.2.1 hcpr.2.2.le).le
          (psa_speed_le_one _ _)
      rcases eq_or_lt_of_le hb1j.1 with hz | hz
      · have hB1j : mbs_bal r P 100 K j = 0 := hz.symm
        have hB2j : mbs_bal r P 200 K j = 0 := by
          have := hdom
          rw [hB1j] at this
          exact le_antisymm this hb2j.1
        have hB1j1 : mbs_bal r P 100 K (j + 1) = 0 := by
          rw [mbs_bal_succ, hB1j, balStep_zero]
        have hB2j1 : mbs_bal r P 200 K (j + 1) = 0 := by
          rw [mbs_bal_succ, hB2j, balStep_zero]
        rw [hB2j1, hB1j1, zero_mul, zero_mul]
      · have t1 : mbs_bal r P 200 K (j + 1) * mbs_bal r P 100 K k
              * mbs_bal r P 100 K j
            ≤ mbs_bal r P 100 K (j + 1) * mbs_bal r P 200 K k
              * mbs_bal r P 100 K j := by
          nlinarith [mul_le_mul_of_nonneg_right hstep hb1k.1,
            mul_le_mul_of_nonneg_right ihk hb1j1.1]
        exact le_of_mul_le_mul_right t1 hz

/-- Chebyshev-style cross inequality: if `g` decays at least proportionally
faster than `f`, the month-weighted mass of `g` relative to `f` is smaller. -/
lemma sum_mul_cross (n : ℕ) (f g : ℕ → ℝ)
    (h : ∀ j k, k ≤ j → g j * f k ≤ f j * g k) :
    (∑ j in Finset.range n, (j : ℝ) * g j) * (∑ k in Finset.range n, f k)
      ≤ (∑ j in Finset.range n, (j : ℝ) * f j) * (∑ k in Finset.range n, g k) := by
  have key : 0 ≤ ∑ j in Finset.range n, ∑ k in Finset.range n,
      ((j : ℝ) - (k : ℝ)) * (f j * g k - g j * f k) := by
    apply Finset.sum_nonneg
    intro j _
    apply Finset.sum_nonneg
    intro k _
    rcases le_total k j with hkj | hjk
    · apply mul_nonneg
      · have : (k : ℝ) ≤ (j : ℝ) := by exact_mod_cast hkj
        linarith
      · have := h j k hkj
        linarith
    · have h1 := h k j hjk
      have h2 : (j : ℝ) ≤ (k : ℝ) := by exact_mod_cast hjk
      have h3 : f j * g k - g j * f k ≤ 0 := by nlinarith [h1]
      exact mul_nonneg_of_nonpos_of_nonpos (by linarith) h3
  have e0 : ∑ j in Finset.range n, ∑ k in Finset.range n,
      ((j : ℝ) - (k : ℝ)) * (f j * g k - g j * f k)
      = ∑ j in Finset.range n, ∑ k in Finset.range n,
        (((j : ℝ) * f j) * g k - ((j : ℝ) * g j) * f k - f j * ((k : ℝ) * g k)
          + g j * ((k : ℝ) * f k)) := by
    apply Finset.sum_congr rfl
    intro j _
    apply Finset.sum_congr rfl
    intro k _
    ring
  have esplit : ∑ j in Finset.range n, ∑ k in Finset.range n,
      (((j : ℝ) * f j) * g k - ((j : ℝ) * g j) * f k - f j * ((k : ℝ) * g k)
        + g j * ((k : ℝ) * f k))
      = (∑ j in Finset.range n, ∑ k in Finset.range n, ((j : ℝ) * f j) * g k)
        - (∑ j in Finset.range n, ∑ k in Finset.range n, ((j : ℝ) * g j) * f k)
        - (∑ j in Finset.range n, ∑ k in Finset.range n, f j * ((k : ℝ) * g k))
        + (∑ j in Finset.range n, ∑ k in Finset.range n, g j * ((k : ℝ) * f k)) := by
    rw [← Finset.sum_sub_distrib, ← Finset.sum_sub_distrib, ← Finset.sum_add_distrib]
    apply Finset.sum_congr rfl
    intro j _
    rw [← Finset.sum_sub_distrib, ← Finset.sum_sub_distrib, ← Finset.sum_add_distrib]
  have e1 : (∑ j in Finset.range n, (j : ℝ) * f j) * (∑ k in Finset.range n, g k)
      = ∑ j in Finset.range n, ∑ k in Finset.range n, ((j : ℝ) * f j) * g k :=
    Finset.sum_mul_sum _ _ _ _
  have e2 : (∑ j in Finset.range n, (j : ℝ) * g j) * (∑ k in Finset.range n, f k)
      = ∑ j in Finset.range n, ∑ k in Finset.range n, ((j : ℝ) * g j) * f k :=
    Finset.sum_mul_sum _ _ _ _
  have e3 : (∑ j in Finset.range n, f j) * (∑ k in Finset.range n, (k : ℝ) * g k)
      = ∑ j in Finset.range n, ∑ k in Finset.range n, f j * ((k : ℝ) * g k) :=
    Finset.sum_mul_sum _ _ _ _
  have e4 : (∑ j in Finset.range n, g j) * (∑ k in Finset.range n, (k : ℝ) * f k)
      = ∑ j in Finset.range n, ∑ k in Finset.range n, g j * ((k : ℝ) * f k) :=
    Finset.sum_mul_sum _ _ _ _
  rw [e0, esplit, ← e1, ← e2, ← e3, ← e4] at key
  nlinarith [key]

/-- Entry sums of the generated series expressed through the balance sequence:
the month-weighted sum and the plain sum of cash flows. -/
lemma cash_flow_sums (K c psa : ℝ) (n : ℕ) (hK : 0 < K) (hc : 0 ≤ c)
    (hn : 1 ≤ n) :
    (∑ i in Finset.range n,
        cfStep (c / 12) (monthly_payment K c n) (psa_prepayment_speed (i + 1) psa)
          (mbs_bal (c / 12) (monthly_payment K c n) psa K i) * ((i : ℝ) + 1)
      = (1 + c / 12) * (∑ i in Finset.range n,
            mbs_bal (c / 12) (monthly_payment K c n) psa K i)
        + (c / 12) * (∑ i in Finset.range n,
            (i : ℝ) * mbs_bal (c / 12) (monthly_payment K c n) psa K i))
    ∧ (∑ i in Finset.range n,
        cfStep (c / 12) (monthly_payment K c n) (psa_prepayment_speed (i + 1) psa)
          (mbs_bal (c / 12) (monthly_payment K c n) psa K i)
      = K + (c / 12) * (∑ i in Finset.range n,
            mbs_bal (c / 12) (monthly_payment K c n) psa K i)) := by
  have hr : (0 : ℝ) ≤ c / 12 := by positivity
  have hP := monthly_payment_pos K c n hK hc hn
  have hrK := rate_mul_principal_lt_payment K c n hK hc hn
  have hbounds := mbs_bal_bounds (c / 12) (monthly_payment K c n) psa K hr hK hP hrK
  have hterm := mbs_bal_term_zero K c psa n hK hc hn
  have hB0 : mbs_bal (c / 12) (monthly_payment K c n) psa K 0 = K := rfl
  have hcf : ∀ i, cfStep (c / 12) (monthly_payment K c n)
      (psa_prepayment_speed (i + 1) psa)
      (mbs_bal (c / 12) (monthly_payment K c n) psa K i)
      = (1 + c / 12) * mbs_bal (c / 12) (monthly_payment K c n) psa K i
        - mbs_bal (c / 12) (monthly_payment K c n) psa K (i + 1) := by
    intro i
    rw [cfStep_eq _ _ _ (hbounds i).1, ← mbs_bal_succ]
  have hTsucc : ∑ i in Finset.range n,
      mbs_bal (c / 12) (monthly_payment K c n) psa K (i + 1)
      = (∑ i in Finset.range n,
          mbs_bal (c / 12) (monthly_payment K c n) psa K i) - K := by
    have h1 := Finset.sum_range_succ'
      (fun i => mbs_bal (c / 12) (monthly_payment K c n) psa K i) n
    have h2 := Finset.sum_range_succ
      (fun i => mbs_bal (c / 12) (monthly_payment K c n) psa K i) n
    simp only [hterm, hB0, add_zero] at h1 h2
    linarith
  have hUsucc : ∑ i in Finset.range n,
      ((i : ℝ) + 1) * mbs_bal (c / 12) (monthly_payment K c n) psa K (i + 1)
      = ∑ i in Finset.range n,
          (i : ℝ) * mbs_bal (c / 12) (monthly_payment K c n) psa K i := by
    have h1 := Finset.sum_range_succ'
      (fun i => (i : ℝ) * mbs_bal (c / 12) (monthly_payment K c n) psa K i) n
    have h2 := Finset.sum_range_succ
      (fun i => (i : ℝ) * mbs_bal (c / 12) (monthly_payment K c n) psa K i) n
    simp only [hterm, hB0, mul_zero, add_zero, Nat.cast_zero, zero_mul] at h1 h2
    have h3 : ∑ i in Finset.range n,
        (((i : ℕ) + 1 : ℕ) : ℝ) * mbs_bal (c / 12) (monthly_payment K c n) psa K
          (i + 1)
        = ∑ i in Finset.range n,
          ((i : ℝ) + 1) * mbs_bal (c / 12) (monthly_payment K c n) psa K (i + 1) := by
      apply Finset.sum_congr rfl
      intro i _
      push_cast
      ring
    rw [h3] at h1
    linarith
  constructor
  · calc ∑ i in Finset.range n,
        cfStep (c / 12) (monthly_payment K c n) (psa_prepayment_speed (i + 1) psa)
          (mbs_bal (c / 12) (monthly_payment K c n) psa K i) * ((i : ℝ) + 1)
        = ∑ i in Finset.range n,
            ((1 + c / 12) * (((i : ℝ) + 1)
                * mbs_bal (c / 12) (monthly_payment K c n) psa K i)
              - ((i : ℝ) + 1)
                * mbs_bal (c / 12) (monthly_payment K c n) psa K (i + 1)) := by
          apply Finset.sum_congr rfl
          intro i _
          rw [hcf i]
          ring
      _ = (1 + c / 12) * (∑ i in Finset.range n,
            ((i : ℝ) + 1) * mbs_bal (c / 12) (monthly_payment K c n) psa K i)
          - ∑ i in Finset.range n,
            ((i : ℝ) + 1) * mbs_bal (c / 12) (monthly_payment K c n) psa K (i + 1) := by
          rw [Finset.sum_sub_distrib, ← Finset.mul_sum]
      _ = (1 + c / 12) * (∑ i in Finset.range n,
            mbs_bal (c / 12) (monthly_payment K c n) psa K i)
          + (c / 12) * (∑ i in Finset.range n,
            (i : ℝ) * mbs_bal (c / 12) (monthly_payment K c n) psa K i) := by
          rw [hUsucc]
          have hsplit : ∑ i in Finset.range n,
              ((i : ℝ) + 1) * mbs_bal (c / 12) (monthly_payment K c n) psa K i
              = (∑ i in Finset.range n,
                  (i : ℝ) * mbs_bal (c / 12) (monthly_payment K c n) psa K i)
                + ∑ i in Finset.range n,
                  mbs_bal (c / 12) (monthly_payment K c n) psa K i := by
            rw [← Finset.sum_add_distrib]
            apply Finset.sum_congr rfl
            intro i _
            ring
          rw [hsplit]
          ring
  · calc ∑ i in Finset.range n,
        cfStep (c / 12) (monthly_payment K c n) (psa_prepayment_speed (i + 1) psa)
          (mbs_bal (c / 12) (monthly_payment K c n) psa K i)
        = ∑ i in Finset.range n,
            ((1 + c / 12) * mbs_bal (c / 12) (monthly_payment K c n) psa K i
              - mbs_bal (c / 12) (monthly_payment K c n) psa K (i + 1)) := by
          apply Finset.sum_congr rfl
          intro i _
          rw [hcf i]
      _ = (1 + c / 12) * (∑ i in Finset.range n,
            mbs_bal (c / 12) (monthly_payment K c n) psa K i)
          - ∑ i in Finset.range n,
            mbs_bal (c / 12) (monthly_payment K c n) psa K (i + 1) := by
          rw [Finset.sum_sub_distrib, ← Finset.mul_sum]
      _ = K + (c / 12) * (∑ i in Finset.range n,
            mbs_bal (c / 12) (monthly_payment K c n) psa K i) := by
          rw [hTsucc]
          ring

lemma sum_range_getD_ofFn (n : ℕ) (F : ℕ → ℝ) (g : ℕ → ℝ) :
    ∑ i in Finset.range n, (List.ofFn fun j : Fin n => F (j : ℕ)).getD i 0 * g i
      = ∑ i in Finset.range n, F i * g i := by
  apply Finset.sum_congr rfl
  intro i hi
  rw [Finset.mem_range] at hi
  rw [List.getD_eq_getElem _ _ (by simpa using hi)]
  simp

lemma sum_ofFn_range (n : ℕ) (F : ℕ → ℝ) :
    (List.ofFn fun j : Fin n => F (j : ℕ)).sum = ∑ i in Finset.range n, F i := by
  rw [List.sum_ofFn]
  exact (Finset.sum_range F).symm

/-- Closed form of the WAL of a generated series in terms of the balance
sums `T = Σ B i` and `U = Σ i·B i`. -/
lemma wal_closed (K c psa d : ℝ) (n : ℕ) (hK : 0 < K) (hc : 0 ≤ c)
    (hn : 1 ≤ n) :
    calculate_wal (mbs_cash_flows K c n psa d)
      = ((1 + c / 12) * (∑ i in Finset.range n,
            mbs_bal (c / 12) (monthly_payment K c n) psa K i)
          + (c / 12) * (∑ i in Finset.range n,
            (i : ℝ) * mbs_bal (c / 12) (monthly_payment K c n) psa K i))
        / (K + (c / 12) * (∑ i in Finset.range n,
            mbs_bal (c / 12) (monthly_payment K c n) psa K i)) := by
  obtain ⟨hnum, hden⟩ := cash_flow_sums K c psa n hK hc hn
  unfold calculate_wal
  rw [mbs_cash_flows_eq_ofFn]
  simp only [List.length_ofFn]
  rw [sum_range_getD_ofFn n (fun m => cfStep (c / 12) (monthly_payment K c n)
      (psa_prepayment_speed (m + 1) psa)
      (mbs_bal (c / 12) (monthly_payment K c n) psa K m)) (fun i => (i : ℝ) + 1)]
  rw [sum_ofFn_range n (fun m => cfStep (c / 12) (monthly_payment K c n)
      (psa_prepayment_speed (m + 1) psa)
      (mbs_bal (c / 12) (monthly_payment K c n) psa K m))]
  rw [hnum, hden]

/-- For `termMonths ≥ 2` the payment is small enough that
`P * (2 + r) ≤ K * (1 + r)^2`. -/
lemma payment_mul_le (K c : ℝ) (n : ℕ) (hK : 0 < K) (hc : 0 ≤ c) (hn : 2 ≤ n) :
    monthly_payment K c n * (2 + c / 12) ≤ K * (1 + c / 12) ^ 2 := by
  rcases eq_or_lt_of_le hc with hc0 | hc0
  · rw [← hc0, monthly_payment_zero_rate]
    have hn2 : (2 : ℝ) ≤ n := by exact_mod_cast hn
    have hn0 : (0 : ℝ) < n := by linarith
    norm_num
    rw [div_mul_eq_mul_div, div_le_iff₀ hn0]
    nlinarith
  · rw [monthly_payment_pos_rate K c n hc0]
    have hr : (0 : ℝ) < c / 12 := by positivity
    have hf2 : (1 + c / 12) ^ 2 ≤ (1 + c / 12) ^ n :=
      pow_le_pow_right₀ (by linarith) hn
    have hf1 : (1 : ℝ) < (1 + c / 12) ^ n := one_lt_pow₀ (by linarith) (by omega)
    rw [div_mul_eq_mul_div,
      div_le_iff₀ (by linarith : (0 : ℝ) < (1 + c / 12) ^ n - 1)]
    nlinarith [mul_nonneg hK.le (sub_nonneg.mpr hf2)]

/-- For `termMonths ≥ 2` the balance after month 1 is strictly smaller under
PSA 200 than under PSA 100. -/
lemma mbs_bal_one_strict (K c : ℝ) (n : ℕ) (hK : 0 < K) (hc : 0 ≤ c)
    (hn : 2 ≤ n) :
    mbs_bal (c / 12) (monthly_payment K c n) 200 K 1
      < mbs_bal (c / 12) (monthly_payment K c n) 100 K 1 := by
  have hn1 : 1 ≤ n := by omega
  have hr : (0 : ℝ) ≤ c / 12 := by positivity
  have hP := monthly_payment_pos K c n hK hc hn1
  have hs2 := psa_speed_one_200_le
  have hcpr := psa_cpr_100_200 1 le_rfl
  have hs12 : psa_prepayment_speed 1 100 < psa_prepayment_speed 1 200 :=
    psa_speed_lt_of_cpr_lt _ _ _ _ hcpr.2.1 hcpr.2.2.le
  have hmul := payment_mul_le K c n hK hc hn
  have hkey : monthly_payment K c n
      < (1 + c / 12 - psa_prepayment_speed 1 200) * K := by
    have h3 : (0 : ℝ) < 2 + c / 12 := by linarith
    have hsb : psa_prepayment_speed 1 200 * (2 + c / 12)
        ≤ (1 / 7500) * (2 + c / 12) := mul_le_mul_of_nonneg_right hs2 h3.le
    have h2 : K * (1 + c / 12) ^ 2
        < (1 + c / 12 - psa_prepayment_speed 1 200) * K * (2 + c / 12) := by
      nlinarith [hsb, hK, hr]
    have h4 : monthly_payment K c n * (2 + c / 12)
        < (1 + c / 12 - psa_prepayment_speed 1 200) * K * (2 + c / 12) :=
      lt_of_le_of_lt hmul h2
    exact lt_of_mul_lt_mul_right h4 h3.le
  have hB2 : mbs_bal (c / 12) (monthly_payment K c n) 200 K 1
      = (1 + c / 12 - psa_prepayment_speed 1 200) * K - monthly_payment K c n := by
    have e : mbs_bal (c / 12) (monthly_payment K c n) 200 K 1
        = balStep (c / 12) (monthly_payment K c n)
            (psa_prepayment_speed 1 200) K := by
      rw [show (1 : ℕ) = 0 + 1 from rfl, mbs_bal_succ, mbs_bal_zero_month]
    rw [e, balStep_closed _ _ _ hK.le (psa_speed_nonneg _ _) hP.le,
      max_eq_left (by linarith)]
  have hB1 : (1 + c / 12 - psa_prepayment_speed 1 100) * K - monthly_payment K c n
      ≤ mbs_bal (c / 12) (monthly_payment K c n) 100 K 1 := by
    have e : mbs_bal (c / 12) (monthly_payment K c n) 100 K 1
        = balStep (c / 12) (monthly_payment K c n)
            (psa_prepayment_speed 1 100) K := by
      rw [show (1 : ℕ) = 0 + 1 from rfl, mbs_bal_succ, mbs_bal_zero_month]
    rw [e, balStep_closed _ _ _ hK.le (psa_speed_nonneg _ _) hP.le]
    exact le_max_left _ _
  have hmono : (1 + c / 12 - psa_prepayment_speed 1 200) * K
      < (1 + c / 12 - psa_prepayment_speed 1 100) * K :=
    mul_lt_mul_of_pos_right (by linarith) hK
  linarith

/-- Strict comparison of the WAL closed forms given the balance-sum
comparisons. -/
lemma wal_frac_lt (r K T1 T2 U1 U2 : ℝ) (hr : 0 ≤ r) (hK : 0 < K)
    (hT1 : 0 ≤ T1) (hT2 : 0 ≤ T2) (hTlt : T2 < T1) (hU : U2 ≤ U1)
    (hUT : U2 * T1 ≤ U1 * T2) :
    ((1 + r) * T2 + r * U2) / (K + r * T2)
      < ((1 + r) * T1 + r * U1) / (K + r * T1) := by
  have hD1 : 0 < K + r * T1 := by nlinarith [mul_nonneg hr hT1]
  have hD2 : 0 < K + r * T2 := by nlinarith [mul_nonneg hr hT2]
  rw [div_lt_div_iff₀ hD2 hD1]
  nlinarith [mul_pos (mul_pos (show (0 : ℝ) < 1 + r by linarith) hK)
      (sub_pos.mpr hTlt),
    mul_nonneg (mul_nonneg hr hK.le) (sub_nonneg.mpr hU),
    mul_nonneg (mul_nonneg hr hr) (sub_nonneg.mpr hUT)]

/-- C4 amended: for every valid `LoanTerms` with `termMonths ≥ 2`, changing
`psaFactor` from 100 to 200 with all else fixed strictly decreases the WAL of
the generated series; at `termMonths = 1` the WAL equals 1 for both factors
(see the counterexample). -/
theorem claim_C4_amended (K c d d' : ℝ) (n : ℕ) (hK : 0 < K) (hc : 0 ≤ c)
    (hn : 2 ≤ n) :
    calculate_wal (mbs_cash_flows K c n 200 d)
      < calculate_wal (mbs_cash_flows K c n 100 d') := by
  have hn1 : 1 ≤ n := by omega
  have hr : (0 : ℝ) ≤ c / 12 := by positivity
  have hP := monthly_payment_pos K c n hK hc hn1
  have hrK := rate_mul_principal_lt_payment K c n hK hc hn1
  have hbounds1 := mbs_bal_bounds (c / 12) (monthly_payment K c n) 100 K hr hK hP hrK
  have hbounds2 := mbs_bal_bounds (c / 12) (monthly_payment K c n) 200 K hr hK hP hrK
  have hdom := mbs_bal_200_le_100 (c / 12) (monthly_payment K c n) K hr hK hP hrK
  have hchain := mbs_bal_cross_chain (c / 12) (monthly_payment K c n) K hr hK hP hrK
  have hstrict := mbs_bal_one_strict K c n hK hc hn
  rw [wal_closed K c 200 d n hK hc hn1, wal_closed K c 100 d' n hK hc hn1]
  have hT1nn : 0 ≤ ∑ i in Finset.range n,
      mbs_bal (c / 12) (monthly_payment K c n) 100 K i :=
    Finset.sum_nonneg fun i _ => (hbounds1 i).1
  have hT2nn : 0 ≤ ∑ i in Finset.range n,
      mbs_bal (c / 12) (monthly_payment K c n) 200 K i :=
    Finset.sum_nonneg fun i _ => (hbounds2 i).1
  have hU : (∑ i in Finset.range n,
        (i : ℝ) * mbs_bal (c / 12) (monthly_payment K c n) 200 K i)
      ≤ ∑ i in Finset.range n,
        (i : ℝ) * mbs_bal (c / 12) (monthly_payment K c n) 100 K i :=
    Finset.sum_le_sum fun i _ =>
      mul_le_mul_of_nonneg_left (hdom i) (Nat.cast_nonneg i)
  have hUT : (∑ i in Finset.range n,
        (i : ℝ) * mbs_bal (c / 12) (monthly_payment K c n) 200 K i)
        * (∑ i in Finset.range n,
            mbs_bal (c / 12) (monthly_payment K c n) 100 K i)
      ≤ (∑ i in Finset.range n,
          (i : ℝ) * mbs_bal (c / 12) (monthly_payment K c n) 100 K i)
        * (∑ i in Finset.range n,
            mbs_bal (c / 12) (monthly_payment K c n) 200 K i) :=
    sum_mul_cross n (fun m => mbs_bal (c / 12) (monthly_payment K c n) 100 K m)
      (fun m => mbs_bal (c / 12) (monthly_payment K c n) 200 K m)
      (fun j k hk => hchain j k hk)
  have hTlt : (∑ i in Finset.range n,
        mbs_bal (c / 12) (monthly_payment K c n) 200 K i)
      < ∑ i in Finset.range n,
        mbs_bal (c / 12) (monthly_payment K c n) 100 K i := by
    have hsub : ∀ i ∈ Finset.range n,
        0 ≤ mbs_bal (c / 12) (monthly_payment K c n) 100 K i
          - mbs_bal (c / 12) (monthly_payment K c n) 200 K i := fun i _ =>
      sub_nonneg.mpr (hdom i)
    have hsingle : mbs_bal (c / 12) (monthly_payment K c n) 100 K 1
          - mbs_bal (c / 12) (monthly_payment K c n) 200 K 1
        ≤ ∑ i in Finset.range n,
            (mbs_bal (c / 12) (monthly_payment K c n) 100 K i
              - mbs_bal (c / 12) (monthly_payment K c n) 200 K i) :=
      Finset.single_le_sum hsub (Finset.mem_range.mpr (by omega))
    rw [Finset.sum_sub_distrib] at hsingle
    linarith
  exact wal_frac_lt (c / 12) K _ _ _ _ hr hK hT1nn hT2nn hTlt hU hUT

/-- C4 witness: the amended statement at a concrete two-month loan. -/
theorem claim_C4_witness :
    calculate_wal (mbs_cash_flows 1 0 2 200 0)
      < calculate_wal (mbs_cash_flows 1 0 2 100 0) :=
  claim_C4_amended 1 0 0 0 2 (by norm_num) (by norm_num) (by norm_num)
